import Mathlib

/-
Shallow embedding of the category-relevance classifier from
src/categorisation.py (function get_relevant_news_categories).

Modelling choices, each matching the Python source:
  * Python strings are lists of characters; str.lower maps Char.toLower
    over the characters; the Python substring test `a in b` is the
    list-infix relation `a <:+: b`.
  * A parsed JSON value is the inductive JValue; a Python dict is a list
    of key/value pairs looked up by first match (keys of a parsed JSON
    object are unique, so first match equals dict lookup).
  * The Python set `relevant` is observed by the source only through
    membership tests (`cat in relevant`); it is embedded as the list of
    all elements ever added, whose membership relation is exactly the
    membership relation of the Python set.
  * The two output-building loops append to a list exactly as the
    source does, including the fact that the first (priority) loop has
    no `not in prioritized` guard while the second loop has one.
-/

abbrev Str := List Char

def str (s : String) : Str := s.toList

/-- Python str.lower, character by character. -/
def lower (s : Str) : Str := s.map Char.toLower

/-- A parsed JSON value, the result of json.loads on well-formed input. -/
inductive JValue where
  | jnull : JValue
  | jbool : Bool → JValue
  | jnum : Int → JValue
  | jstr : Str → JValue
  | jarr : List JValue → JValue
  | jobj : List (Str × JValue) → JValue

/-- Lookup of a key in a parsed JSON object (Python dict access). -/
def jget : List (Str × JValue) → Str → Option JValue
  | [], _ => none
  | (k, v) :: rest, key => if k = key then some v else jget rest key

/-- Python `user_data.get(key, [])` for a field expected to hold an
array: a missing key or a non-object input yields the empty list. -/
def jgetArr (d : JValue) (key : Str) : List JValue :=
  match d with
  | .jobj fields =>
    match jget fields key with
    | some (.jarr xs) => xs
    | _ => []
  | _ => []

/-- Python `account.get('type', '')`: the type field of an entry, the
empty string when the field is absent. -/
def entryType (e : JValue) : Str :=
  match e with
  | .jobj fields =>
    match jget fields (str "type") with
    | some (.jstr s) => s
    | _ => []
  | _ => []

/-- Python truthiness of `user_data.get('credit_cards')`: true exactly
for a present, non-empty credit_cards array. -/
def hasCreditCards (d : JValue) : Bool :=
  !(jgetArr d (str "credit_cards")).isEmpty

def blockchain : Str := str "blockchain"
def earnings : Str := str "earnings"
def ipo : Str := str "ipo"
def mergers_and_acquisitions : Str := str "mergers_and_acquisitions"
def financial_markets : Str := str "financial_markets"
def economy_fiscal : Str := str "economy_fiscal"
def economy_monetary : Str := str "economy_monetary"
def economy_macro : Str := str "economy_macro"
def energy_transportation : Str := str "energy_transportation"
def finance : Str := str "finance"
def life_sciences : Str := str "life_sciences"
def manufacturing : Str := str "manufacturing"
def real_estate : Str := str "real_estate"
def retail_wholesale : Str := str "retail_wholesale"
def technology : Str := str "technology"

/-- News categories mapping (code to display label), in declaration
order; only the keys and their order are read by the algorithm. -/
def categories : List (Str × Str) := [
  (blockchain, str "Blockchain"),
  (earnings, str "Earnings"),
  (ipo, str "IPO"),
  (mergers_and_acquisitions, str "Mergers & Acquisitions"),
  (financial_markets, str "Financial Markets"),
  (economy_fiscal, str "Economy - Fiscal Policy"),
  (economy_monetary, str "Economy - Monetary Policy"),
  ( economy_macro, str "Economy - Macro/Overall"),
  (energy_transportation, str "Energy & Transportation"),
  (finance, str "Finance"),
  (life_sciences, str "Life Sciences"),
  (manufacturing, str "Manufacturing"),
  (real_estate, str "Real Estate & Construction"),
  (retail_wholesale, str "Retail & Wholesale"),
  (technology, str "Technology")]

/-- The fixed 15 category codes, in declaration order. -/
def categoryCodes : List Str := categories.map Prod.fst

/-- Map from account types to news categories, in declaration order. -/
def account_type_map : List (Str × List Str) := [
  (str "crypto", [blockchain]),
  (str "investment", [earnings, ipo, mergers_and_acquisitions, financial_markets, technology]),
  (str "retirement", [ economy_macro, economy_monetary, financial_markets]),
  (str "credit_card", [economy_monetary, finance]),
  (str "loan", [economy_fiscal, finance]),
  (str "mortgage", [real_estate, economy_monetary]),
  (str "student_loan", [economy_fiscal, finance]),
  (str "bank", [finance, economy_macro]),
  (str "real_estate", [real_estate]),
  (str "energy", [energy_transportation]),
  (str "manufacturing", [manufacturing]),
  (str "retail", [retail_wholesale]),
  (str "life_sciences", [life_sciences])]

/-- Keyword map for the user statement, in declaration order. -/
def keyword_map : List (Str × Str) := [
  (str "crypto", blockchain),
  (str "bitcoin", blockchain),
  (str "ethereum", blockchain),
  (str "stock", financial_markets),
  (str "invest", financial_markets),
  (str "retire", economy_macro),
  (str "mortgage", real_estate),
  (str "house", real_estate),
  (str "home", real_estate),
  (str "loan", finance),
  (str "debt", finance),
  (str "save", economy_monetary),
  (str "interest rate", economy_monetary),
  (str "inflation", economy_monetary),
  (str "tax", economy_fiscal),
  (str "job", economy_macro),
  (str "energy", energy_transportation),
  (str "tech", technology),
  (str "manufacturing", manufacturing),
  (str "retail", retail_wholesale),
  (str "biotech", life_sciences),
  (str "health", life_sciences)]

/-- Analysis of one account: for every key of account_type_map that is
a substring of the lowercased type, add the mapped categories. -/
def accountStep (rel : List Str) (account : JValue) : List Str :=
  let acct_type := lower (entryType account)
  account_type_map.foldl
    (fun rel kv => if kv.1 <:+: acct_type then rel ++ kv.2 else rel) rel

/-- Analysis of one loan: the student check and the mortgage/else pair,
exactly as in the source (the else is relative to mortgage only). -/
def loanStep (rel : List Str) (loan : JValue) : List Str :=
  let loan_type := lower (entryType loan)
  let rel := if str "student" <:+: loan_type then rel ++ [economy_fiscal, finance] else rel
  if str "mortgage" <:+: loan_type then rel ++ [real_estate, economy_monetary]
  else rel ++ [finance, economy_fiscal]

/-- Analysis of one investment: crypto check, then stock/etf check. -/
def investmentStep (rel : List Str) (inv : JValue) : List Str :=
  let inv_type := lower (entryType inv)
  let rel := if str "crypto" <:+: inv_type then rel ++ [blockchain] else rel
  if str "stock" <:+: inv_type ∨ str "etf" <:+: inv_type then
    rel ++ [earnings, ipo, mergers_and_acquisitions, financial_markets, technology]
  else rel

/-- The relevant-category set built by the analysis phases, in source
order: accounts, credit cards, loans, investments, statement keywords,
then the unconditional economy_macro baseline. Only its membership
relation is ever observed downstream. -/
def relevantSet (accounts loans investments : List JValue) (hasCC : Bool)
    (statement : Str) : List Str :=
  let rel : List Str := []
  let rel := accounts.foldl accountStep rel
  let rel := if hasCC then rel ++ [economy_monetary, finance] else rel
  let rel := loans.foldl loanStep rel
  let rel := investments.foldl investmentStep rel
  let stmt := lower statement
  let rel := keyword_map.foldl
    (fun rel kv => if kv.1 <:+: stmt then rel ++ [kv.2] else rel) rel
  rel ++ [ economy_macro]

/-- Fixed priority key order for the first output loop. -/
def priority_order : List Str :=
  [str "student_loan", str "mortgage", str "investment", str "crypto",
   str "credit_card", str "loan", str "bank"]

/-- Python `account_type_map.get(key, [])`. -/
def mapGet : List (Str × List Str) → Str → List Str
  | [], _ => []
  | (k, v) :: rest, key => if k = key then v else mapGet rest key

/-- First output loop: for each priority key, append every mapped
category present in the relevant set (no duplicate guard, as in the
source). -/
def prioritizePass (rel : List Str) : List Str :=
  priority_order.foldl
    (fun prioritized key =>
      (mapGet account_type_map key).foldl
        (fun prioritized cat =>
          if cat ∈ rel then prioritized ++ [cat] else prioritized)
        prioritized)
    []

/-- Second output loop: walk the category declaration order and append
any relevant category not already emitted. -/
def restPass (rel prioritized : List Str) : List Str :=
  categoryCodes.foldl
    (fun prioritized cat =>
      if cat ∉ prioritized ∧ cat ∈ rel then prioritized ++ [cat]
      else prioritized)
    prioritized

/-- Both output loops: prioritized list built from the relevant set. -/
def prioritize (rel : List Str) : List Str := restPass rel (prioritizePass rel)

/-- The classifier body after field extraction. -/
def classifyCore (accounts loans investments : List JValue) (hasCC : Bool)
    (statement : Str) : List Str :=
  prioritize (relevantSet accounts loans investments hasCC statement)

/-- get_relevant_news_categories on a parsed user_data value: the list
bound to the key relevant_categories of the returned JSON. -/
def get_relevant_news_categories (user_data : JValue) (user_statement : Str) : List Str :=
  classifyCore (jgetArr user_data (str "accounts"))
    (jgetArr user_data (str "loans"))
    (jgetArr user_data (str "investments"))
    (hasCreditCards user_data)
    user_statement

/-- Modelled from the spec: json.loads is the Python standard-library
parser, which is not part of this repository. A malformed serialized
input is modelled as a parse result of none and the exception raised by
json.loads as the error branch; a well-formed input parses to some
value and the classifier runs on it. -/
def get_relevant_news_categoriesE (parsed : Option JValue) (user_statement : Str) :
    Except Str (List Str) :=
  match parsed with
  | none => .error (str "parse error")
  | some v => .ok (get_relevant_news_categories v user_statement)

/-
Normal forms for the accumulation loops: every loop body appends a
contribution that depends only on the current entry, so a foldl equals
the initial accumulator followed by the joined per-entry contributions.
-/

lemma foldl_step_append {α : Type} (f : List Str → α → List Str) (g : α → List Str)
    (hf : ∀ r x, f r x = r ++ g x) :
    ∀ (xs : List α) (init : List Str), xs.foldl f init = init ++ (xs.map g).flatten
  | [], _ => by simp
  | x :: xs, init => by
    simp only [List.foldl_cons, List.map_cons, List.flatten_cons, hf,
      foldl_step_append f g hf xs, List.append_assoc]

/-- Categories contributed by one account of lowercased type t. -/
def accountCatsT (t : Str) : List Str :=
  (account_type_map.map (fun kv => if kv.1 <:+: t then kv.2 else [])).flatten

/-- Categories contributed by one account entry. -/
def accountCats (a : JValue) : List Str := accountCatsT (lower (entryType a))

/-- Categories contributed by one loan of lowercased type t. -/
def loanCatsT (t : Str) : List Str :=
  (if str "student" <:+: t then [economy_fiscal, finance] else []) ++
  (if str "mortgage" <:+: t then [real_estate, economy_monetary]
   else [finance, economy_fiscal])

/-- Categories contributed by one loan entry. -/
def loanCats (l : JValue) : List Str := loanCatsT (lower (entryType l))

/-- Categories contributed by one investment of lowercased type t. -/
def investmentCatsT (t : Str) : List Str :=
  (if str "crypto" <:+: t then [blockchain] else []) ++
  (if str "stock" <:+: t ∨ str "etf" <:+: t then
    [earnings, ipo, mergers_and_acquisitions, financial_markets, technology]
   else [])

/-- Categories contributed by one investment entry. -/
def investmentCats (i : JValue) : List Str := investmentCatsT (lower (entryType i))

/-- Categories contributed by the credit-card truthiness check. -/
def ccCats (cc : Bool) : List Str :=
  if cc then [economy_monetary, finance] else []

/-- Categories contributed by the statement keyword scan. -/
def keywordCats (statement : Str) : List Str :=
  (keyword_map.map (fun kv => if kv.1 <:+: lower statement then [kv.2] else [])).flatten

lemma accountStep_eq (rel : List Str) (a : JValue) :
    accountStep rel a = rel ++ accountCats a := by
  unfold accountStep accountCats accountCatsT
  exact foldl_step_append _ _
    (by intro r kv; by_cases h : kv.1 <:+: lower (entryType a) <;> simp [h]) _ rel

lemma loanStep_eq (rel : List Str) (l : JValue) :
    loanStep rel l = rel ++ loanCats l := by
  unfold loanStep loanCats loanCatsT
  by_cases h1 : str "student" <:+: lower (entryType l) <;>
    by_cases h2 : str "mortgage" <:+: lower (entryType l) <;>
      simp [h1, h2]

lemma investmentStep_eq (rel : List Str) (i : JValue) :
    investmentStep rel i = rel ++ investmentCats i := by
  unfold investmentStep investmentCats investmentCatsT
  by_cases h1 : str "crypto" <:+: lower (entryType i) <;>
    by_cases h2 : str "stock" <:+: lower (entryType i) ∨ str "etf" <:+: lower (entryType i) <;>
      simp [h1, h2]

lemma relevantSet_eq (as ls is : List JValue) (cc : Bool) (s : Str) :
    relevantSet as ls is cc s =
      (as.map accountCats).flatten ++ ccCats cc ++ (ls.map loanCats).flatten ++
        (is.map investmentCats).flatten ++ keywordCats s ++ [ economy_macro] := by
  unfold relevantSet
  dsimp only
  rw [foldl_step_append accountStep accountCats accountStep_eq as []]
  rw [foldl_step_append loanStep loanCats loanStep_eq ls]
  rw [foldl_step_append investmentStep investmentCats investmentStep_eq is]
  rw [foldl_step_append _ (fun kv => if kv.1 <:+: lower s then [kv.2] else [])
    (by intro r kv; by_cases h : kv.1 <:+: lower s <;> simp [h]) keyword_map]
  unfold keywordCats ccCats
  cases cc <;> simp [List.append_assoc]

lemma mem_relevantSet {c : Str} (as ls is : List JValue) (cc : Bool) (s : Str) :
    c ∈ relevantSet as ls is cc s ↔
      (∃ a ∈ as, c ∈ accountCats a) ∨
      (cc = true ∧ (c = economy_monetary ∨ c = finance)) ∨
      (∃ l ∈ ls, c ∈ loanCats l) ∨
      (∃ i ∈ is, c ∈ investmentCats i) ∨
      c ∈ keywordCats s ∨ c = economy_macro := by
  rw [relevantSet_eq]
  cases cc
  all_goals simp [ccCats, List.mem_append, List.mem_flatten, List.mem_map]
  all_goals aesop

lemma mem_prioritizePass {c : Str} (rel : List Str) :
    c ∈ prioritizePass rel ↔
      ∃ key ∈ priority_order, c ∈ mapGet account_type_map key ∧ c ∈ rel := by
  unfold prioritizePass
  rw [foldl_step_append _
    (fun key => ((mapGet account_type_map key).map
      (fun cat => if cat ∈ rel then [cat] else [])).flatten)
    (by
      intro r key
      exact foldl_step_append _ _
        (by intro q cat; by_cases h : cat ∈ rel <;> simp [h]) _ r)
    priority_order []]
  simp only [List.nil_append, List.mem_flatten, List.mem_map]
  constructor
  · rintro ⟨cs, ⟨key, hkey, rfl⟩, hc⟩
    simp only [List.mem_flatten, List.mem_map] at hc
    obtain ⟨ds, ⟨cat, hcat, rfl⟩, hd⟩ := hc
    by_cases h : cat ∈ rel
    · simp only [if_pos h, List.mem_singleton] at hd
      exact ⟨key, hkey, hd ▸ hcat, hd ▸ h⟩
    · simp [if_neg h] at hd
  · rintro ⟨key, hkey, hmem, hrel⟩
    refine ⟨_, ⟨key, hkey, rfl⟩, ?_⟩
    simp only [List.mem_flatten, List.mem_map]
    exact ⟨[c], ⟨c, hmem, by simp [hrel]⟩, by simp⟩

lemma mem_foldl_guard (rel : List Str) (c : Str) :
    ∀ (cats p : List Str),
      c ∈ cats.foldl
          (fun prioritized cat =>
            if cat ∉ prioritized ∧ cat ∈ rel then prioritized ++ [cat]
            else prioritized) p ↔
        c ∈ p ∨ (c ∈ cats ∧ c ∈ rel)
  | [], p => by simp
  | cat :: cats, p => by
    simp only [List.foldl_cons]
    rw [mem_foldl_guard rel c cats]
    by_cases hp : cat ∈ p <;> by_cases hr : cat ∈ rel <;> by_cases hc : c = cat <;>
      subst_eqs <;> simp_all [List.mem_append]

lemma mem_restPass {c : Str} (rel p : List Str) :
    c ∈ restPass rel p ↔ c ∈ p ∨ (c ∈ categoryCodes ∧ c ∈ rel) := by
  unfold restPass
  exact mem_foldl_guard rel c categoryCodes p

/-
The output-building phase reads the relevant set only through
membership tests, so it is invariant under membership-equivalent
relevant sets, and every emitted category is a relevant one.
-/

lemma prioritizePass_congr {rel₁ rel₂ : List Str}
    (h : ∀ x, x ∈ rel₁ ↔ x ∈ rel₂) :
    prioritizePass rel₁ = prioritizePass rel₂ := by
  unfold prioritizePass
  have hfun :
      (fun (prioritized : List Str) (cat : Str) =>
        if cat ∈ rel₁ then prioritized ++ [cat] else prioritized) =
      (fun prioritized cat =>
        if cat ∈ rel₂ then prioritized ++ [cat] else prioritized) := by
    funext prioritized cat
    by_cases hc : cat ∈ rel₁
    · rw [if_pos hc, if_pos ((h cat).mp hc)]
    · rw [if_neg hc, if_neg (fun h2 => hc ((h cat).mpr h2))]
  rw [hfun]

lemma restPass_congr {rel₁ rel₂ : List Str}
    (h : ∀ x, x ∈ rel₁ ↔ x ∈ rel₂) (p : List Str) :
    restPass rel₁ p = restPass rel₂ p := by
  unfold restPass
  have hfun :
      (fun (prioritized : List Str) (cat : Str) =>
        if cat ∉ prioritized ∧ cat ∈ rel₁ then prioritized ++ [cat]
        else prioritized) =
      (fun prioritized cat =>
        if cat ∉ prioritized ∧ cat ∈ rel₂ then prioritized ++ [cat]
        else prioritized) := by
    funext prioritized cat
    by_cases hp : cat ∈ prioritized <;> by_cases hc : cat ∈ rel₁
    · simp [hp]
    · simp [hp]
    · rw [if_pos ⟨hp, hc⟩, if_pos ⟨hp, (h cat).mp hc⟩]
    · rw [if_neg (fun hand => hc hand.2),
        if_neg (fun hand => hc ((h cat).mpr hand.2))]
  rw [hfun]

lemma prioritize_congr {rel₁ rel₂ : List Str}
    (h : ∀ x, x ∈ rel₁ ↔ x ∈ rel₂) :
    prioritize rel₁ = prioritize rel₂ := by
  unfold prioritize
  rw [prioritizePass_congr h, restPass_congr h]

lemma atm_values_sub :
    ∀ kv ∈ account_type_map, ∀ x ∈ kv.2, x ∈ categoryCodes := by
  intro kv hkv
  fin_cases hkv <;> decide

lemma sub_codes_of_all {l : List Str}
    (h : l.all (fun x => decide (x ∈ categoryCodes)) = true)
    {c : Str} (hc : c ∈ l) : c ∈ categoryCodes := by
  rw [List.all_eq_true] at h
  exact of_decide_eq_true (h c hc)

lemma accountCats_sub {c : Str} {a : JValue} (h : c ∈ accountCats a) :
    c ∈ categoryCodes := by
  unfold accountCats accountCatsT at h
  simp only [List.mem_flatten, List.mem_map] at h
  obtain ⟨cs, ⟨kv, hkv, rfl⟩, hc⟩ := h
  by_cases hcond : kv.1 <:+: lower (entryType a)
  · exact atm_values_sub kv hkv c (by simpa [hcond] using hc)
  · simp [hcond] at hc

lemma loanCats_sub {c : Str} {l : JValue} (h : c ∈ loanCats l) :
    c ∈ categoryCodes := by
  unfold loanCats loanCatsT at h
  rw [List.mem_append] at h
  rcases h with h | h <;> split at h <;>
    exact sub_codes_of_all (by decide) h

lemma investmentCats_sub {c : Str} {i : JValue} (h : c ∈ investmentCats i) :
    c ∈ categoryCodes := by
  unfold investmentCats investmentCatsT at h
  rw [List.mem_append] at h
  rcases h with h | h <;> split at h <;>
    exact sub_codes_of_all (by decide) h

lemma km_values_sub : ∀ kv ∈ keyword_map, kv.2 ∈ categoryCodes := by
  intro kv hkv
  fin_cases hkv <;> decide

lemma keywordCats_sub {c : Str} {s : Str} (h : c ∈ keywordCats s) :
    c ∈ categoryCodes := by
  unfold keywordCats at h
  simp only [List.mem_flatten, List.mem_map] at h
  obtain ⟨cs, ⟨kv, hkv, rfl⟩, hc⟩ := h
  by_cases hcond : kv.1 <:+: lower s
  · have : c = kv.2 := by simpa [hcond] using hc
    exact this ▸ km_values_sub kv hkv
  · simp [hcond] at hc

lemma relevant_sub_codes {c : Str} {as ls is : List JValue} {cc : Bool} {s : Str}
    (h : c ∈ relevantSet as ls is cc s) : c ∈ categoryCodes := by
  rw [mem_relevantSet] at h
  rcases h with ⟨a, _, ha⟩ | ⟨_, h | h⟩ | ⟨l, _, hl⟩ | ⟨i, _, hi⟩ | h | h
  · exact accountCats_sub ha
  · subst h; decide
  · subst h; decide
  · exact loanCats_sub hl
  · exact investmentCats_sub hi
  · exact keywordCats_sub h
  · subst h; decide

lemma mem_classifyCore {c : Str} (as ls is : List JValue) (cc : Bool) (s : Str) :
    c ∈ classifyCore as ls is cc s ↔ c ∈ relevantSet as ls is cc s := by
  unfold classifyCore prioritize
  rw [mem_restPass]
  constructor
  · rintro (hp | ⟨_, hr⟩)
    · obtain ⟨key, _, _, hrel⟩ := (mem_prioritizePass _).mp hp
      exact hrel
    · exact hr
  · intro hr
    exact Or.inr ⟨relevant_sub_codes hr, hr⟩

lemma flatten_map_eq_nil {α : Type} (f : α → List Str) :
    ∀ (l : List α), (∀ x ∈ l, f x = []) → (l.map f).flatten = []
  | [], _ => rfl
  | x :: xs, h => by
    simp only [List.map_cons, List.flatten_cons, h x (List.mem_cons_self x xs),
      List.nil_append]
    exact flatten_map_eq_nil f xs (fun y hy => h y (List.mem_cons_of_mem x hy))

lemma exists_mem_middle {α : Type} (P : α → Prop) (y : α) (l₁ l₂ : List α) :
    (∃ x ∈ l₁ ++ y :: l₂, P x) ↔ (∃ x ∈ l₁ ++ l₂, P x) ∨ P y := by
  constructor
  · rintro ⟨x, hx, hP⟩
    rcases List.mem_append.mp hx with hx | hx
    · exact Or.inl ⟨x, List.mem_append.mpr (Or.inl hx), hP⟩
    · rcases List.mem_cons.mp hx with rfl | hx
      · exact Or.inr hP
      · exact Or.inl ⟨x, List.mem_append.mpr (Or.inr hx), hP⟩
  · rintro (⟨x, hx, hP⟩ | hP)
    · rcases List.mem_append.mp hx with hx | hx
      · exact ⟨x, List.mem_append.mpr (Or.inl hx), hP⟩
      · exact ⟨x, List.mem_append.mpr (Or.inr (List.mem_cons_of_mem y hx)), hP⟩
    · exact ⟨y, List.mem_append.mpr (Or.inr (List.mem_cons_self y l₂)), hP⟩

/-- C1: the claim says no category code appears more than once in the
returned list. The code violates this: its first prioritization loop
has no already-emitted guard, so on a profile with one generic loan the
code emits finance four times and economy_fiscal twice. The function's
own docstring example presents a duplicate-free output, so the code
contradicts its own documentation here. -/
theorem count_duplicates_in_prioritized_output :
    get_relevant_news_categories
        (.jobj [(str "loans", .jarr [.jobj [(str "type", .jstr (str "personal"))]])])
        [] =
      [economy_fiscal, finance, finance, economy_fiscal, finance, finance, economy_macro] ∧
    (get_relevant_news_categories
        (.jobj [(str "loans", .jarr [.jobj [(str "type", .jstr (str "personal"))]])])
        []).count finance = 4 := by
  decide

/-- C2, counterexample: a loan of type auto matches no classification
key, yet the output differs from the output with that loan absent,
because the loan else branch fires. -/
theorem unmapped_loan_changes_output :
    get_relevant_news_categories
        (.jobj [(str "loans", .jarr [.jobj [(str "type", .jstr (str "auto"))]])]) [] ≠
      get_relevant_news_categories (.jobj []) [] := by
  decide

/-- C2, amended: an account or investment entry whose type matches no
key of the corresponding classification logic contributes no categories
and causes no error (output unchanged by deleting the entry), but a
loan entry whose type matches neither student nor mortgage contributes
exactly finance and economy_fiscal through the else branch. -/
theorem unmapped_entry_contribution :
    (∀ (a : JValue) (as₁ as₂ ls is : List JValue) (cc : Bool) (s : Str),
      (∀ kv ∈ account_type_map, ¬ kv.1 <:+: lower (entryType a)) →
      classifyCore (as₁ ++ a :: as₂) ls is cc s = classifyCore (as₁ ++ as₂) ls is cc s) ∧
    (∀ (i : JValue) (as ls is₁ is₂ : List JValue) (cc : Bool) (s : Str),
      ¬ str "crypto" <:+: lower (entryType i) →
      ¬ str "stock" <:+: lower (entryType i) →
      ¬ str "etf" <:+: lower (entryType i) →
      classifyCore as ls (is₁ ++ i :: is₂) cc s = classifyCore as ls (is₁ ++ is₂) cc s) ∧
    (∀ (l : JValue) (as ls₁ ls₂ is : List JValue) (cc : Bool) (s c : Str),
      ¬ str "student" <:+: lower (entryType l) →
      ¬ str "mortgage" <:+: lower (entryType l) →
      (c ∈ classifyCore as (ls₁ ++ l :: ls₂) is cc s ↔
        c ∈ classifyCore as (ls₁ ++ ls₂) is cc s ∨ c = finance ∨ c = economy_fiscal)) := by
  refine ⟨?_, ?_, ?_⟩
  · intro a as₁ as₂ ls is cc s ha
    have hnil : accountCats a = [] := by
      unfold accountCats accountCatsT
      exact flatten_map_eq_nil _ account_type_map
        (fun kv hkv => if_neg (ha kv hkv))
    unfold classifyCore
    rw [relevantSet_eq, relevantSet_eq]
    simp [List.map_append, List.flatten_append, hnil]
  · intro i as ls is₁ is₂ cc s h1 h2 h3
    have hnil : investmentCats i = [] := by
      unfold investmentCats investmentCatsT
      rw [if_neg h1, if_neg (fun h => h.elim h2 h3)]
      rfl
    unfold classifyCore
    rw [relevantSet_eq, relevantSet_eq]
    simp [List.map_append, List.flatten_append, hnil]
  · intro l as ls₁ ls₂ is cc s c h1 h2
    rw [mem_classifyCore, mem_classifyCore, mem_relevantSet, mem_relevantSet,
      exists_mem_middle (fun x => c ∈ loanCats x) l ls₁ ls₂]
    have hl : loanCats l = [finance, economy_fiscal] := by
      unfold loanCats loanCatsT
      rw [if_neg h1, if_neg h2]
      rfl
    rw [hl]
    simp only [List.mem_cons, List.not_mem_nil, or_false]
    aesop

/-- Witness for the amended C2 at concrete unmapped entries. -/
theorem unmapped_entry_contribution_witness :
    classifyCore [JValue.jobj [(str "type", JValue.jstr (str "checking"))]] [] [] false [] =
        classifyCore [] [] [] false [] ∧
    classifyCore [] [] [JValue.jobj [(str "type", JValue.jstr (str "bond"))]] false [] =
        classifyCore [] [] [] false [] ∧
    (finance ∈ classifyCore [] [JValue.jobj [(str "type", JValue.jstr (str "auto"))]] [] false [] ↔
      finance ∈ classifyCore [] [] [] false [] ∨ finance = finance ∨ finance = economy_fiscal) :=
  ⟨unmapped_entry_contribution.1 _ [] [] [] [] false [] (by decide),
   unmapped_entry_contribution.2.1 _ [] [] [] [] false [] (by decide) (by decide) (by decide),
   unmapped_entry_contribution.2.2 _ [] [] [] [] false [] finance (by decide) (by decide)⟩

/-- C4: one loan receives the student categories exactly when its type
contains student, and it receives the mortgage categories when its type
contains mortgage, otherwise the generic pair; the generic branch is
skipped exactly on the mortgage substring, independently of student. -/
theorem loan_else_branch_keyed_on_mortgage (rel : List Str) (l : JValue) :
    loanStep rel l =
      rel ++
        (if str "student" <:+: lower (entryType l)
         then [economy_fiscal, finance] else []) ++
        (if str "mortgage" <:+: lower (entryType l)
         then [real_estate, economy_monetary]
         else [finance, economy_fiscal]) := by
  rw [loanStep_eq]
  unfold loanCats loanCatsT
  rw [List.append_assoc]

/-- Witness for C4 on a student non-mortgage loan and a mortgage loan. -/
theorem loan_else_branch_keyed_on_mortgage_witness :
    loanStep [] (JValue.jobj [(str "type", JValue.jstr (str "student_loan"))]) =
        [] ++ [economy_fiscal, finance] ++ [finance, economy_fiscal] ∧
    loanStep [] (JValue.jobj [(str "type", JValue.jstr (str "mortgage"))]) =
        [] ++ [] ++ [real_estate, economy_monetary] := by
  constructor
  · rw [loan_else_branch_keyed_on_mortgage [] (JValue.jobj [(str "type", JValue.jstr (str "student_loan"))])]
    decide
  · rw [loan_else_branch_keyed_on_mortgage [] (JValue.jobj [(str "type", JValue.jstr (str "mortgage"))])]
    decide

/-- C5: an empty profile, with the four fields absent or all empty, and
an empty statement produce exactly the singleton economy_macro list. -/
theorem empty_profile_empty_statement_output :
    get_relevant_news_categories (.jobj []) [] = [ economy_macro] ∧
    get_relevant_news_categories
        (.jobj [(str "accounts", .jarr []), (str "credit_cards", .jarr []),
                (str "loans", .jarr []), (str "investments", .jarr [])]) [] =
      [ economy_macro] := by
  decide

/-- C6: one crypto account plus one mortgage loan and an empty
statement yield blockchain, real_estate, economy_monetary and
economy_macro, and do not yield technology. -/
theorem crypto_mortgage_scenario :
    blockchain ∈ get_relevant_news_categories
        (.jobj [(str "accounts", .jarr [.jobj [(str "type", .jstr (str "crypto"))]]),
                (str "loans", .jarr [.jobj [(str "type", .jstr (str "mortgage"))]])]) [] ∧
    real_estate ∈ get_relevant_news_categories
        (.jobj [(str "accounts", .jarr [.jobj [(str "type", .jstr (str "crypto"))]]),
                (str "loans", .jarr [.jobj [(str "type", .jstr (str "mortgage"))]])]) [] ∧
    economy_monetary ∈ get_relevant_news_categories
        (.jobj [(str "accounts", .jarr [.jobj [(str "type", .jstr (str "crypto"))]]),
                (str "loans", .jarr [.jobj [(str "type", .jstr (str "mortgage"))]])]) [] ∧
    economy_macro ∈ get_relevant_news_categories
        (.jobj [(str "accounts", .jarr [.jobj [(str "type", .jstr (str "crypto"))]]),
                (str "loans", .jarr [.jobj [(str "type", .jstr (str "mortgage"))]])]) [] ∧
    (get_relevant_news_categories
        (.jobj [(str "accounts", .jarr [.jobj [(str "type", .jstr (str "crypto"))]]),
                (str "loans", .jarr [.jobj [(str "type", .jstr (str "mortgage"))]])]) []).contains
      technology = false := by
  decide

/-- C3: every returned category is one of the fixed 15 codes, the
baseline economy_macro is always in the output, and the output is
never empty. -/
theorem output_subset_and_baseline (d : JValue) (s : Str) :
    (get_relevant_news_categories d s).all
        (fun c => decide (c ∈ categoryCodes)) = true ∧
    economy_macro ∈ get_relevant_news_categories d s ∧
    (get_relevant_news_categories d s).isEmpty = false := by
  have hmem : ∀ c : Str, c ∈ get_relevant_news_categories d s ↔
      c ∈ relevantSet (jgetArr d (str "accounts")) (jgetArr d (str "loans"))
        (jgetArr d (str "investments")) (hasCreditCards d) s := by
    intro c
    unfold get_relevant_news_categories
    exact mem_classifyCore _ _ _ _ _
  have hbase : economy_macro ∈ get_relevant_news_categories d s :=
    (hmem _).mpr ((mem_relevantSet _ _ _ _ _).mpr
      (Or.inr (Or.inr (Or.inr (Or.inr (Or.inr rfl))))))
  refine ⟨?_, hbase, ?_⟩
  · rw [List.all_eq_true]
    intro c hc
    exact decide_eq_true (relevant_sub_codes ((hmem c).mp hc))
  · cases hout : get_relevant_news_categories d s with
    | nil => rw [hout] at hbase; exact absurd hbase (List.not_mem_nil _)
    | cons x xs => rfl

/-- Witness for C3 at a concrete profile and statement. -/
theorem output_subset_and_baseline_witness :
    (get_relevant_news_categories (.jobj []) (str "tech") ).all
        (fun c => decide (c ∈ categoryCodes)) = true ∧
    economy_macro ∈ get_relevant_news_categories (.jobj []) (str "tech") ∧
    (get_relevant_news_categories (.jobj []) (str "tech")).isEmpty = false :=
  output_subset_and_baseline (.jobj []) (str "tech")

lemma exists_mem_perm {α : Type} {l₁ l₂ : List α} (h : l₁.Perm l₂) (P : α → Prop) :
    (∃ x ∈ l₁, P x) ↔ ∃ x ∈ l₂, P x := by
  constructor <;> rintro ⟨y, hy, hP⟩
  · exact ⟨y, h.mem_iff.mp hy, hP⟩
  · exact ⟨y, h.mem_iff.mpr hy, hP⟩

/-- C7: the output list is a function of the relevant set through
membership alone, and permuting the four profile sequences leaves the
output unchanged. -/
theorem output_depends_only_on_relevance_set :
    (∀ rel₁ rel₂ : List Str, (∀ x, x ∈ rel₁ ↔ x ∈ rel₂) →
      prioritize rel₁ = prioritize rel₂) ∧
    (∀ (d₁ d₂ : JValue) (s : Str),
      (jgetArr d₁ (str "accounts")).Perm (jgetArr d₂ (str "accounts")) →
      (jgetArr d₁ (str "credit_cards")).Perm (jgetArr d₂ (str "credit_cards")) →
      (jgetArr d₁ (str "loans")).Perm (jgetArr d₂ (str "loans")) →
      (jgetArr d₁ (str "investments")).Perm (jgetArr d₂ (str "investments")) →
      get_relevant_news_categories d₁ s = get_relevant_news_categories d₂ s) := by
  constructor
  · exact fun rel₁ rel₂ h => prioritize_congr h
  · intro d₁ d₂ s hacc hcc hloan hinv
    have hccb : hasCreditCards d₁ = hasCreditCards d₂ := by
      have hlen : ∀ (l₁ l₂ : List JValue), l₁.length = l₂.length →
          l₁.isEmpty = l₂.isEmpty := by
        intro l₁ l₂ h
        cases l₁ <;> cases l₂ <;> simp_all
      unfold hasCreditCards
      rw [hlen _ _ hcc.length_eq]
    unfold get_relevant_news_categories classifyCore
    rw [hccb]
    apply prioritize_congr
    intro x
    rw [mem_relevantSet, mem_relevantSet,
      exists_mem_perm hacc, exists_mem_perm hloan, exists_mem_perm hinv]

/-- Witness for C7: swapping two accounts leaves the output unchanged. -/
theorem output_depends_only_on_relevance_set_witness :
    get_relevant_news_categories
        (.jobj [(str "accounts",
          .jarr [.jobj [(str "type", .jstr (str "crypto"))],
                 .jobj [(str "type", .jstr (str "bank"))]])]) [] =
      get_relevant_news_categories
        (.jobj [(str "accounts",
          .jarr [.jobj [(str "type", .jstr (str "bank"))],
                 .jobj [(str "type", .jstr (str "crypto"))]])]) [] := by
  apply output_depends_only_on_relevance_set.2
  · exact List.Perm.swap _ _ _
  · exact List.Perm.refl _
  · exact List.Perm.refl _
  · exact List.Perm.refl _

lemma map_accountCats (as : List JValue) :
    as.map accountCats = (as.map entryType).map (fun t => accountCatsT (lower t)) := by
  rw [List.map_map]
  rfl

lemma map_loanCats (ls : List JValue) :
    ls.map loanCats = (ls.map entryType).map (fun t => loanCatsT (lower t)) := by
  rw [List.map_map]
  rfl

lemma map_investmentCats (is : List JValue) :
    is.map investmentCats = (is.map entryType).map (fun t => investmentCatsT (lower t)) := by
  rw [List.map_map]
  rfl

/-- C9: the classifier reads only the type strings of accounts, loans
and investments, the truthiness of credit_cards, and the statement;
two inputs agreeing on these produce identical outputs, so credit-card
record contents and non-type entry fields never influence the result. -/
theorem noninterference_of_non_type_fields (d₁ d₂ : JValue) (s : Str)
    (hacc : (jgetArr d₁ (str "accounts")).map entryType =
      (jgetArr d₂ (str "accounts")).map entryType)
    (hloan : (jgetArr d₁ (str "loans")).map entryType =
      (jgetArr d₂ (str "loans")).map entryType)
    (hinv : (jgetArr d₁ (str "investments")).map entryType =
      (jgetArr d₂ (str "investments")).map entryType)
    (hcc : hasCreditCards d₁ = hasCreditCards d₂) :
    get_relevant_news_categories d₁ s = get_relevant_news_categories d₂ s := by
  unfold get_relevant_news_categories classifyCore
  rw [hcc]
  have hrel :
      relevantSet (jgetArr d₁ (str "accounts")) (jgetArr d₁ (str "loans"))
          (jgetArr d₁ (str "investments")) (hasCreditCards d₂) s =
        relevantSet (jgetArr d₂ (str "accounts")) (jgetArr d₂ (str "loans"))
          (jgetArr d₂ (str "investments")) (hasCreditCards d₂) s := by
    rw [relevantSet_eq, relevantSet_eq,
      map_accountCats, map_accountCats, hacc,
      map_loanCats, map_loanCats, hloan,
      map_investmentCats, map_investmentCats, hinv]
  rw [hrel]

/-- Witness for C9: extra record fields and credit-card contents do
not change the output. -/
theorem noninterference_of_non_type_fields_witness :
    get_relevant_news_categories
        (.jobj [(str "accounts",
            .jarr [.jobj [(str "type", .jstr (str "bank")), (str "balance", .jnum 100)]]),
          (str "credit_cards", .jarr [.jobj [(str "issuer", .jstr (str "Chase"))]])]) [] =
      get_relevant_news_categories
        (.jobj [(str "accounts", .jarr [.jobj [(str "type", .jstr (str "bank"))]]),
          (str "credit_cards", .jarr [.jobj []])]) [] :=
  noninterference_of_non_type_fields _ _ []
    (by decide) (by decide) (by decide) (by decide)

lemma substring_append_right {k s t : Str} (h : k <:+: s) : k <:+: s ++ t := by
  obtain ⟨u, w, rfl⟩ := h
  exact ⟨u, w ++ t, by simp [List.append_assoc]⟩

lemma mem_keywordCats {c : Str} (s : Str) :
    c ∈ keywordCats s ↔ ∃ kv ∈ keyword_map, kv.1 <:+: lower s ∧ c = kv.2 := by
  unfold keywordCats
  simp only [List.mem_flatten, List.mem_map]
  constructor
  · rintro ⟨cs, ⟨kv, hkv, rfl⟩, hc⟩
    by_cases hcond : kv.1 <:+: lower s
    · refine ⟨kv, hkv, hcond, ?_⟩
      simpa [hcond] using hc
    · simp [hcond] at hc
  · rintro ⟨kv, hkv, hcond, rfl⟩
    exact ⟨[kv.2], ⟨kv, hkv, by simp [hcond]⟩, by simp⟩

lemma keywordCats_mono {c : Str} {s t : Str} (h : c ∈ keywordCats s) :
    c ∈ keywordCats (s ++ t) := by
  rw [mem_keywordCats] at h ⊢
  obtain ⟨kv, hkv, hcond, rfl⟩ := h
  refine ⟨kv, hkv, ?_, rfl⟩
  unfold lower at hcond ⊢
  rw [List.map_append]
  exact substring_append_right hcond

/-- C10: extending the accounts, loans or investments sequences, adding
credit-card entries, or appending text at the end of the statement can
only add categories: every category of the original output stays in the
extended output. -/
theorem output_monotone_under_extension
    (as as2 ls ls2 is is2 : List JValue) (cc b : Bool) (s t : Str) (c : Str)
    (h : c ∈ classifyCore as ls is cc s) :
    c ∈ classifyCore (as ++ as2) (ls ++ ls2) (is ++ is2) (cc || b) (s ++ t) := by
  rw [mem_classifyCore] at h ⊢
  rw [mem_relevantSet] at h ⊢
  rcases h with ⟨a, ha, hc⟩ | ⟨hcc, hc⟩ | ⟨l, hl, hc⟩ | ⟨i, hi, hc⟩ | h | h
  · exact Or.inl ⟨a, List.mem_append.mpr (Or.inl ha), hc⟩
  · exact Or.inr (Or.inl ⟨by rw [hcc]; rfl, hc⟩)
  · exact Or.inr (Or.inr (Or.inl ⟨l, List.mem_append.mpr (Or.inl hl), hc⟩))
  · exact Or.inr (Or.inr (Or.inr (Or.inl ⟨i, List.mem_append.mpr (Or.inl hi), hc⟩)))
  · exact Or.inr (Or.inr (Or.inr (Or.inr (Or.inl (keywordCats_mono h)))))
  · exact Or.inr (Or.inr (Or.inr (Or.inr (Or.inr h))))

/-- Witness for C10: the baseline category survives an extension by an
account, a credit card and extra statement text. -/
theorem output_monotone_under_extension_witness :
    economy_macro ∈
      classifyCore ([] ++ [JValue.jobj [(str "type", JValue.jstr (str "crypto"))]])
        ([] ++ []) ([] ++ []) (false || true) ([] ++ str "tax") :=
  output_monotone_under_extension [] [JValue.jobj [(str "type", JValue.jstr (str "crypto"))]]
    [] [] [] [] false true [] (str "tax") economy_macro (by decide)

lemma jget_append (l₁ l₂ : List (Str × JValue)) (k : Str) :
    jget (l₁ ++ l₂) k = match jget l₁ k with
      | some v => some v
      | none => jget l₂ k := by
  induction l₁ with
  | nil => simp [jget]
  | cons kv rest ih =>
    obtain ⟨k', v'⟩ := kv
    by_cases h : k' = k <;> simp [jget, h, ih]

lemma jgetArr_pad (fields : List (Str × JValue)) (key k' : Str) :
    jgetArr (.jobj (fields ++ [(key, .jarr [])])) k' = jgetArr (.jobj fields) k' := by
  unfold jgetArr
  dsimp only
  rw [jget_append]
  cases h : jget fields k' with
  | some v => rfl
  | none => by_cases hk : key = k' <;> simp [jget, hk]

/-- C8: the classifier errors exactly on a malformed serialized input
(modelled as a failed parse), and for well-formed input the four
optional list fields default to empty when absent, as does the type
field of an entry, never producing an error. -/
theorem parse_error_and_defaults :
    (∀ s : Str, get_relevant_news_categoriesE none s =
      Except.error (str "parse error")) ∧
    (∀ (v : JValue) (s : Str),
      get_relevant_news_categoriesE (some v) s =
        Except.ok (get_relevant_news_categories v s)) ∧
    (∀ (fields : List (Str × JValue)) (key : Str) (s : Str),
      key ∈ [str "accounts", str "credit_cards", str "loans", str "investments"] →
      jget fields key = none →
      get_relevant_news_categories (.jobj (fields ++ [(key, .jarr [])])) s =
        get_relevant_news_categories (.jobj fields) s) ∧
    (∀ fields : List (Str × JValue), jget fields (str "type") = none →
      entryType (.jobj fields) = []) := by
  refine ⟨fun s => rfl, fun v s => rfl, ?_, ?_⟩
  · intro fields key s _hkey _hnone
    unfold get_relevant_news_categories hasCreditCards
    rw [jgetArr_pad, jgetArr_pad, jgetArr_pad, jgetArr_pad]
  · intro fields h
    unfold entryType
    dsimp only
    rw [h]

/-- Witness for C8 at concrete malformed and well-formed inputs. -/
theorem parse_error_and_defaults_witness :
    get_relevant_news_categoriesE none [] = Except.error (str "parse error") ∧
    get_relevant_news_categoriesE (some (.jobj [])) [] =
      Except.ok (get_relevant_news_categories (.jobj []) []) ∧
    get_relevant_news_categories
        (.jobj ([(str "note", .jstr (str "hi"))] ++ [(str "accounts", .jarr [])])) [] =
      get_relevant_news_categories (.jobj [(str "note", .jstr (str "hi"))]) [] ∧
    entryType (.jobj [(str "issuer", .jstr (str "Chase"))]) = [] :=
  ⟨parse_error_and_defaults.1 [],
   parse_error_and_defaults.2.1 _ [],
   parse_error_and_defaults.2.2.1 [(str "note", .jstr (str "hi"))] (str "accounts") []
     (by decide) (by rfl),
   parse_error_and_defaults.2.2.2 _ (by rfl)⟩
